import Mathlib

/-!
Shallow embedding of `src/convert.py` (class `ARM2AssemblyConverter`), the
ARM2-assembly-to-HTML annotator, together with proofs about its behaviour.

Strings are modelled as `List Char` (Python `str` is a sequence of code
points; all inputs of interest are ASCII, and the Python functions used —
`str.strip`, `str.upper`, `re` with the classes `\s` and `\w` — are modelled
on their ASCII behaviour).  Each definition mirrors one Python function or
expression of the source; the correspondence is noted in its doc comment.
-/

namespace AnnoAssy

/-- Abbreviation: the character list of a string literal. -/
def str (x : String) : List Char := x.data

/-- The whitespace characters of Python `str.strip` / regex `\s` (ASCII). -/
def isPySpace (c : Char) : Bool :=
  c == ' ' || c == '\t' || c == '\n' || c == '\r' || c == '\x0b' || c == '\x0c'

/-- Python `s.strip()`: drop leading and trailing whitespace. -/
def pyStrip (l : List Char) : List Char :=
  ((l.dropWhile isPySpace).reverse.dropWhile isPySpace).reverse

/-- Python `s.upper()` (ASCII). -/
def pyUpper (l : List Char) : List Char := l.map Char.toUpper

/-- Regex `\w` (ASCII): letters, digits and underscore. -/
def isWordChar (c : Char) : Bool := c.isAlphanum || c == '_'

/-- The delimiter class of `re.split(r'([\s:,#\(\)\"]+)', line)` in
`_process_line`. -/
def isDelim (c : Char) : Bool :=
  isPySpace c || c == ':' || c == ',' || c == '#' || c == '(' || c == ')' || c == '\"'

/-- `re.match(r'^(\.\w+)', s)` followed by `.group(1).replace(".", "")`:
if `s` starts with `'.'` followed by at least one word character, return the
maximal word-character run after the dot (the captured group has exactly one
dot, which `replace` removes); otherwise `none`.  Used both by
`_collect_labels` (on stripped lines) and `_process_line` (on stripped
tokens). -/
def labelMatch (l : List Char) : Option (List Char) :=
  if l.head? = some '.' then
    if l.tail.takeWhile isWordChar = [] then none
    else some (l.tail.takeWhile isWordChar)
  else none

/-- The metadata stored per mnemonic by `_load_opcode_info`
(`{'type': row['Category'], 'description': row['Description']}`). -/
structure OpInfo where
  type : List Char
  description : List Char
deriving DecidableEq

/-- One row of the opcode CSV file as produced by `csv.DictReader`
(columns `Mnemonic`, `Category`, `Description`).  CSV parsing itself is
Python standard-library behaviour and is taken as given. -/
structure CsvRow where
  mnemonic : List Char
  category : List Char
  description : List Char

/-- `_load_opcode_info`: build the mnemonic-to-metadata dictionary.  The key
is `row['Mnemonic'].upper()` unless case-sensitive mode is configured.  The
Python dict is modelled as an association list onto which each row is
prepended, so that lookup (which takes the first match) sees the latest
binding for a key, matching dict overwrite semantics. -/
def loadOpcodeInfo (rows : List CsvRow) (caseSensitive : Bool) :
    List (List Char × OpInfo) :=
  rows.foldl (fun acc row =>
    ((if caseSensitive then row.mnemonic else pyUpper row.mnemonic),
      OpInfo.mk row.category row.description) :: acc) []

/-- Python `key in dict` / `dict[key]` on the association list. -/
def lookupStr (m : List (List Char × OpInfo)) (k : List Char) : Option OpInfo :=
  (m.find? (fun p => decide (p.1 = k))).map (fun p => p.2)

/-- The configuration and loaded table of one `ARM2AssemblyConverter`
instance.  `commentMark` models the constructor argument `comment_prefix`
(default `";"`). -/
structure Converter where
  opcodeInfo : List (List Char × OpInfo)
  wrapComments : Bool
  commentMark : List Char
  caseSensitive : Bool

/-- `norm_part` in `_process_line`: `part.strip().upper()` if not
case-sensitive, else `part.strip()`. -/
def normTok (conv : Converter) (part : List Char) : List Char :=
  if conv.caseSensitive then pyStrip part else pyUpper (pyStrip part)

/-- The label-declaration rendering of `_process_line`:
`<span class="label"><a id="{label}" data-type="Label">{part}</a></span>`. -/
def labelRender (label part : List Char) : List Char :=
  str "<span class=\"label\"><a id=\"" ++ label ++ str "\" data-type=\"Label\">" ++
    part ++ str "</a></span>"

/-- The opcode rendering of `_process_line`.  Note the missing space between
the `data-description` attribute and `title`, exactly as in the source
f-string. -/
def opcodeRender (info : OpInfo) (part : List Char) : List Char :=
  str "<span data-type=\"" ++ info.type ++ str "\" data-description=\"" ++
    info.description ++ str "\"title=\"" ++ info.description ++ str "\">" ++
    part ++ str "</span>"

/-- The branch-reference rendering of `_process_line`:
`<span class="branch"><a data-type="Branch" href="#{part}">{part}</a></span>`. -/
def branchRender (part : List Char) : List Char :=
  str "<span class=\"branch\"><a data-type=\"Branch\" href=\"#" ++ part ++
    str "\">" ++ part ++ str "</a></span>"

/-- The fallthrough rendering of `_process_line`: `<span>{part}</span>`. -/
def plainRender (part : List Char) : List Char :=
  str "<span>" ++ part ++ str "</span>"

/-- The classification chain of the loop body of `_process_line`:
label declaration, else opcode, else branch reference (raw token compared
with the label set), else plain. -/
def classifyToken (conv : Converter) (labels : List (List Char))
    (part : List Char) : List Char :=
  match labelMatch (pyStrip part) with
  | some label => labelRender label part
  | none =>
    match lookupStr conv.opcodeInfo (normTok conv part) with
    | some info => opcodeRender info part
    | none =>
      if part ∈ labels then branchRender part else plainRender part

/-- One step of the tokenizer `re.split(r'([\s:,#\(\)\"]+)', line)`,
prepending one character to an already-tokenized tail.  The token list
alternates non-delimiter chunks and delimiter runs, beginning and ending
with a (possibly empty) non-delimiter chunk, exactly as `re.split` with a
capturing group returns them. -/
def splitStep (c : Char) (runs : List (List Char)) : List (List Char) :=
  if isDelim c then
    match runs with
    | [] => [[], [c], []]
    | [r] => [[], [c], r]
    | r :: d :: rest =>
      if r = [] then [] :: (c :: d) :: rest else [] :: [c] :: r :: d :: rest
  else
    match runs with
    | [] => [[c]]
    | r :: rest => (c :: r) :: rest

/-- `re.split(r'([\s:,#\(\)\"]+)', line)`: split into maximal runs, keeping
the delimiter runs as tokens. -/
def splitRuns (l : List Char) : List (List Char) :=
  l.foldr splitStep [[]]

/-- One step of Python `assembly_code.split('\n')`, prepending one
character. -/
def lineStep (c : Char) (acc : List (List Char)) : List (List Char) :=
  if c = '\n' then [] :: acc
  else
    match acc with
    | [] => [[c]]
    | a :: rest => (c :: a) :: rest

/-- Python `s.split('\n')` (note `"".split('\n') == ['']`). -/
def splitLines (l : List Char) : List (List Char) :=
  l.foldr lineStep [[]]

/-- Python `'\n'.join(lines)`. -/
def joinLines : List (List Char) → List Char
  | [] => []
  | [a] => a
  | a :: rest => a ++ '\n' :: joinLines rest

/-- `code_part.replace('<', '&lt;')` in `convert`. -/
def escapeLt : List Char → List Char
  | [] => []
  | c :: rest => (if c = '<' then str "&lt;" else [c]) ++ escapeLt rest

/-- Python `line.split(sep, 1)`: the part before the first occurrence of
`sep`, and the part after it (`none` when `sep` does not occur).  (Python
raises on an empty separator; here an empty separator simply never
matches — the claims only concern non-empty comment prefixes.) -/
def splitFirst (sep : List Char) : List Char → List Char × Option (List Char)
  | [] => ([], none)
  | c :: rest =>
    if sep.isPrefixOf (c :: rest) && !sep.isEmpty then
      ([], some ((c :: rest).drop sep.length))
    else
      ((c :: (splitFirst sep rest).1), (splitFirst sep rest).2)

/-- `_process_line`: tokenize, classify each token, and concatenate. -/
def processLine (conv : Converter) (labels : List (List Char))
    (line : List Char) : List Char :=
  ((splitRuns line).map (classifyToken conv labels)).flatten

/-- One step of the `for line in ...` loop of `_collect_labels`. -/
def collectStep (acc : List (List Char)) (line : List Char) : List (List Char) :=
  match labelMatch (pyStrip line) with
  | some lab => if lab ∈ acc then acc else acc ++ [lab]
  | none => acc

/-- `_collect_labels`: the label set (an insertion-ordered set of label
names; the Python dict maps each label to itself, so only the keys
matter). -/
def collectLabels (code : List Char) : List (List Char) :=
  (splitLines code).foldl collectStep []

/-- The comment handling in the loop of `convert`: a present comment part
is appended verbatim after the prefix, wrapped in a comment span when
`wrap_comments` is set; an absent comment contributes nothing. -/
def commentChunk (conv : Converter) (cp : Option (List Char)) : List Char :=
  match cp with
  | some c =>
    if conv.wrapComments then
      str "<span class=\"comment\" data-type=\"Comment\">" ++
        conv.commentMark ++ c ++ str "</span>"
    else conv.commentMark ++ c
  | none => []

/-- The body of the `for line in lines` loop of `convert`: blank lines are
wrapped verbatim; otherwise the line is split at the first comment prefix,
the code part has `<` escaped and is tokenized and classified, the comment
chunk (if any) is appended, and the whole is wrapped in
`<span>...</span>`. -/
def annotateLine (conv : Converter) (labels : List (List Char))
    (line : List Char) : List Char :=
  if pyStrip line = [] then str "<span>" ++ line ++ str "</span>"
  else
    str "<span>" ++
      (processLine conv labels (escapeLt (splitFirst conv.commentMark line).1) ++
        commentChunk conv (splitFirst conv.commentMark line).2) ++
      str "</span>"

/-- The `processed_lines` list of `convert`: the label set is collected from
the whole input first, then every line is annotated against it. -/
def annotatedLines (conv : Converter) (code : List Char) : List (List Char) :=
  (splitLines code).map (annotateLine conv (collectLabels code))

/-- `ARM2AssemblyConverter.convert`: `'\n'.join(processed_lines)`. -/
def convertL (conv : Converter) (code : List Char) : List Char :=
  joinLines (annotatedLines conv code)

/-- `convert` at the level of Lean `String`. -/
def convert (conv : Converter) (code : String) : String :=
  ⟨convertL conv code.data⟩

/-- A default-configured converter with an empty opcode table
(`wrap_comments=True`, `comment_prefix=';'`, `case_sensitive=False`). -/
def convDefault : Converter := ⟨[], true, str ";", false⟩

/-! ### Basic helper lemmas -/

/-- Membership in `takeWhile` implies membership in the list. -/
theorem mem_of_mem_takeWhileP {p : Char → Bool} {l : List Char} {c : Char}
    (h : c ∈ l.takeWhile p) : c ∈ l := by
  induction l with
  | nil => simp [List.takeWhile] at h
  | cons a t ih =>
    rw [List.takeWhile] at h
    cases hp : p a with
    | false => rw [hp] at h; simp at h
    | true =>
      rw [hp] at h
      rcases List.mem_cons.mp h with h | h
      · simp [h]
      · exact List.mem_cons_of_mem _ (ih h)

/-- Membership in `dropWhile` implies membership in the list. -/
theorem mem_of_mem_dropWhileP {p : Char → Bool} {l : List Char} {c : Char}
    (h : c ∈ l.dropWhile p) : c ∈ l := by
  induction l with
  | nil => simp [List.dropWhile] at h
  | cons a t ih =>
    rw [List.dropWhile] at h
    cases hp : p a with
    | false => rw [hp] at h; simpa using h
    | true => rw [hp] at h; exact List.mem_cons_of_mem _ (ih h)

/-- Stripping only removes characters. -/
theorem mem_of_mem_pyStrip {l : List Char} {c : Char} (h : c ∈ pyStrip l) :
    c ∈ l := by
  unfold pyStrip at h
  rw [List.mem_reverse] at h
  have h2 := mem_of_mem_dropWhileP h
  rw [List.mem_reverse] at h2
  exact mem_of_mem_dropWhileP h2

/-- The name produced by `labelMatch` uses only characters of its input. -/
theorem mem_of_mem_labelMatch {s name : List Char} {c : Char}
    (h : labelMatch s = some name) (hc : c ∈ name) : c ∈ s := by
  unfold labelMatch at h
  by_cases hh : s.head? = some '.'
  · rw [if_pos hh] at h
    by_cases hw : s.tail.takeWhile isWordChar = []
    · rw [if_pos hw] at h; exact absurd h (by simp)
    · rw [if_neg hw] at h
      have hn : name = s.tail.takeWhile isWordChar := by
        have := h
        simp at this
        exact this.symm
      exact List.mem_of_mem_tail (mem_of_mem_takeWhileP (hn ▸ hc))
  · rw [if_neg hh] at h; exact absurd h (by simp)

/-- An element of a list of lists is an infix of the flattening. -/
theorem infix_of_infix_append {l s t : List Char} (h : l <:+: t) :
    l <:+: s ++ t := by
  obtain ⟨p, q, hpq⟩ := h
  exact ⟨s ++ p, q, by rw [← hpq]; simp⟩

/-! ### The tokenizer reconstructs its input -/

/-- Prepending one character to the token list prepends it to the
flattening. -/
theorem flatten_splitStep (c : Char) (runs : List (List Char)) :
    (splitStep c runs).flatten = c :: runs.flatten := by
  rcases runs with _ | ⟨r, _ | ⟨d, rest⟩⟩
  · unfold splitStep; cases h : isDelim c <;> simp [h]
  · unfold splitStep; cases h : isDelim c <;> simp [h]
  · unfold splitStep
    cases h : isDelim c
    · simp [h]
    · by_cases hr : r = [] <;> simp [h, hr]

/-- Flattening the token list of `splitRuns` gives back the input. -/
theorem splitRuns_flatten (l : List Char) : (splitRuns l).flatten = l := by
  induction l with
  | nil => rfl
  | cons c rest ih =>
    have h : splitRuns (c :: rest) = splitStep c (splitRuns rest) := rfl
    rw [h, flatten_splitStep, ih]

/-- Characters of a token are characters of the tokenized text. -/
theorem mem_of_mem_splitRuns {l t : List Char} {c : Char}
    (ht : t ∈ splitRuns l) (hc : c ∈ t) : c ∈ l := by
  have h : c ∈ (splitRuns l).flatten := List.mem_flatten.mpr ⟨t, ht, hc⟩
  rwa [splitRuns_flatten] at h

/-! ### Comment splitting -/

/-- When no comment mark is found, the code part is the whole line. -/
theorem splitFirst_eq_none {sep l : List Char}
    (h : (splitFirst sep l).2 = none) : (splitFirst sep l).1 = l := by
  induction l with
  | nil => rfl
  | cons ch rest ih =>
    rw [splitFirst] at h ⊢
    by_cases hc : (sep.isPrefixOf (ch :: rest) && !sep.isEmpty) = true
    · rw [if_pos hc] at h
      simp at h
    · rw [if_neg hc] at h ⊢
      have h2 : (splitFirst sep rest).2 = none := h
      show ch :: (splitFirst sep rest).1 = ch :: rest
      rw [ih h2]

/-- When a comment mark is found, line = code ++ mark ++ comment: the
comment part is the verbatim tail of the line after the first occurrence of
the separator. -/
theorem splitFirst_eq_some {sep l c0 : List Char}
    (h : (splitFirst sep l).2 = some c0) :
    (splitFirst sep l).1 ++ sep ++ c0 = l := by
  induction l with
  | nil => simp [splitFirst] at h
  | cons ch rest ih =>
    rw [splitFirst] at h ⊢
    by_cases hc : (sep.isPrefixOf (ch :: rest) && !sep.isEmpty) = true
    · rw [if_pos hc] at h ⊢
      have h2 : (ch :: rest).drop sep.length = c0 := by simpa using h
      have hc1 : sep.isPrefixOf (ch :: rest) = true := by
        rw [Bool.and_eq_true] at hc
        exact hc.1
      obtain ⟨t, ht⟩ := List.isPrefixOf_iff_prefix.mp hc1
      have hdrop : (ch :: rest).drop sep.length = t := by
        rw [← ht]; exact List.drop_left sep t
      show [] ++ sep ++ c0 = ch :: rest
      rw [List.nil_append, ← h2, hdrop, ht]
    · rw [if_neg hc] at h ⊢
      have h2 : (splitFirst sep rest).2 = some c0 := h
      show ch :: (splitFirst sep rest).1 ++ sep ++ c0 = ch :: rest
      have h3 := ih h2
      rw [List.cons_append, List.cons_append, h3]

/-! ### Escaping of the code segment -/

/-- No literal `<` survives `escapeLt`. -/
theorem not_mem_escapeLt_lt (l : List Char) : '<' ∉ escapeLt l := by
  induction l with
  | nil => simp [escapeLt]
  | cons c rest ih =>
    rw [escapeLt]
    intro hmem
    rcases List.mem_append.mp hmem with h | h
    · by_cases hc : c = '<'
      · rw [if_pos hc] at h; revert h; decide
      · rw [if_neg hc] at h; simp at h; exact hc h.symm
    · exact ih h

/-- Every character produced by `escapeLt` comes from the input or from the
entity text `&lt;`. -/
theorem mem_of_mem_escapeLt {l : List Char} {c : Char}
    (h : c ∈ escapeLt l) : c ∈ l ∨ c ∈ str "&lt;" := by
  induction l with
  | nil => simp [escapeLt] at h
  | cons a rest ih =>
    rw [escapeLt] at h
    rcases List.mem_append.mp h with h | h
    · by_cases ha : a = '<'
      · rw [if_pos ha] at h; exact Or.inr h
      · rw [if_neg ha] at h
        simp at h
        exact Or.inl (by simp [h])
    · rcases ih h with h | h
      · exact Or.inl (List.mem_cons_of_mem _ h)
      · exact Or.inr h

/-- Whenever the input contains a `<`, the escaped text contains the entity
`&lt;`. -/
theorem entity_infix_escapeLt {l : List Char} (h : '<' ∈ l) :
    str "&lt;" <:+: escapeLt l := by
  induction l with
  | nil => simp at h
  | cons a rest ih =>
    by_cases ha : a = '<'
    · exact ⟨[], escapeLt rest, by rw [escapeLt, if_pos ha]; simp⟩
    · have hr : '<' ∈ rest := by
        rcases List.mem_cons.mp h with h | h
        · exact absurd h.symm ha
        · exact h
      have := ih hr
      rw [escapeLt, if_neg ha]
      exact infix_of_infix_append this

/-! ### Line splitting and joining -/

/-- `splitLines` never returns the empty list. -/
theorem splitLines_ne_nil (l : List Char) : splitLines l ≠ [] := by
  induction l with
  | nil => simp [splitLines]
  | cons c rest ih =>
    have h : splitLines (c :: rest) = lineStep c (splitLines rest) := rfl
    rw [h]
    unfold lineStep
    by_cases hc : c = '\n'
    · simp [hc]
    · rw [if_neg hc]
      rcases hs : splitLines rest with _ | ⟨a, t⟩
      · exact absurd hs ih
      · simp

/-- No element of `splitLines` contains a newline. -/
theorem not_nl_mem_splitLines {l x : List Char} (hx : x ∈ splitLines l) :
    '\n' ∉ x := by
  induction l generalizing x with
  | nil =>
    simp [splitLines] at hx
    simp [hx]
  | cons c rest ih =>
    have h : splitLines (c :: rest) = lineStep c (splitLines rest) := rfl
    rw [h] at hx
    unfold lineStep at hx
    by_cases hc : c = '\n'
    · rw [if_pos hc] at hx
      rcases List.mem_cons.mp hx with h1 | h1
      · simp [h1]
      · exact ih h1
    · rw [if_neg hc] at hx
      rcases hs : splitLines rest with _ | ⟨a, t⟩
      · exact absurd hs (splitLines_ne_nil rest)
      · rw [hs] at hx
        rcases List.mem_cons.mp hx with h1 | h1
        · have ha : '\n' ∉ a := ih (hs ▸ List.mem_cons_self a t)
          rw [h1]
          intro hmem
          rcases List.mem_cons.mp hmem with h2 | h2
          · exact hc h2.symm
          · exact ha h2
        · exact ih (hs ▸ List.mem_cons_of_mem _ h1)

/-- Folding `lineStep` over a newline-free prefix extends the first line of
the accumulator. -/
theorem foldr_lineStep_no_nl {a : List Char} {b : List Char}
    {rest : List (List Char)} (h : '\n' ∉ a) :
    a.foldr lineStep (b :: rest) = (a ++ b) :: rest := by
  induction a with
  | nil => rfl
  | cons c t ih =>
    have hc : c ≠ '\n' := fun hc => h (hc ▸ List.mem_cons_self c t)
    have ht : '\n' ∉ t := fun hm => h (List.mem_cons_of_mem _ hm)
    rw [List.foldr_cons, ih ht]
    unfold lineStep
    rw [if_neg hc]
    rfl

/-- A newline-free text is a single line. -/
theorem splitLines_no_nl {a : List Char} (h : '\n' ∉ a) :
    splitLines a = [a] := by
  unfold splitLines
  rw [foldr_lineStep_no_nl h, List.append_nil]

/-- Splitting distributes over one explicit newline when the first segment
is newline-free. -/
theorem splitLines_append_nl {a r : List Char} (h : '\n' ∉ a) :
    splitLines (a ++ '\n' :: r) = a :: splitLines r := by
  unfold splitLines
  rw [List.foldr_append, List.foldr_cons]
  have h1 : lineStep '\n' (r.foldr lineStep [[]]) = [] :: r.foldr lineStep [[]] := by
    unfold lineStep; simp
  rw [h1]
  rw [foldr_lineStep_no_nl h, List.append_nil]

/-- Splitting the newline-join of newline-free lines recovers the lines. -/
theorem splitLines_joinLines {L : List (List Char)} (hne : L ≠ [])
    (hnl : ∀ x ∈ L, '\n' ∉ x) : splitLines (joinLines L) = L := by
  induction L with
  | nil => exact absurd rfl hne
  | cons a t ih =>
    rcases t with _ | ⟨b, rest⟩
    · exact splitLines_no_nl (hnl a (List.mem_cons_self a []))
    · have hj : joinLines (a :: b :: rest) = a ++ '\n' :: joinLines (b :: rest) := rfl
      rw [hj, splitLines_append_nl (hnl a (List.mem_cons_self _ _))]
      rw [ih (by simp) (fun x hx => hnl x (List.mem_cons_of_mem _ hx))]

/-- Every element of a line list is an infix of its newline-join. -/
theorem infix_joinLines {L : List (List Char)} {x : List Char} (hx : x ∈ L) :
    x <:+: joinLines L := by
  induction L with
  | nil => simp at hx
  | cons a t ih =>
    rcases t with _ | ⟨b, rest⟩
    · have : x = a := by simpa using hx
      rw [this]
      exact List.infix_rfl
    · have hj : joinLines (a :: b :: rest) = a ++ '\n' :: joinLines (b :: rest) := rfl
      rcases List.mem_cons.mp hx with h | h
      · exact hj ▸ ⟨[], '\n' :: joinLines (b :: rest), by rw [h]; simp⟩
      · have := ih h
        rw [hj]
        obtain ⟨p, q, hpq⟩ := this
        exact ⟨a ++ '\n' :: p, q, by rw [← hpq]; simp⟩

/-! ### Annotation introduces no newline characters -/

/-- `commentChunk` on an absent comment. -/
theorem commentChunk_none (conv : Converter) : commentChunk conv none = [] := rfl

/-- `commentChunk` on a present comment. -/
theorem commentChunk_some (conv : Converter) (c : List Char) :
    commentChunk conv (some c) =
      if conv.wrapComments then
        str "<span class=\"comment\" data-type=\"Comment\">" ++
          conv.commentMark ++ c ++ str "</span>"
      else conv.commentMark ++ c := rfl

/-- A character absent from both parts is absent from their
concatenation. -/
theorem notin_append {c : Char} {a b : List Char} (ha : c ∉ a) (hb : c ∉ b) :
    c ∉ a ++ b := by
  intro h
  rcases List.mem_append.mp h with h | h
  · exact ha h
  · exact hb h

/-- `escapeLt` introduces no characters beyond the entity text. -/
theorem notin_escapeLt {l : List Char} {c : Char} (hc : c ∉ l)
    (hent : c ∉ str "&lt;") : c ∉ escapeLt l :=
  fun h => (mem_of_mem_escapeLt h).elim hc hent

/-- A classified token contains no newline when the token and the opcode
table are newline-free. -/
theorem not_nl_classifyToken {conv : Converter} {labels : List (List Char)}
    {part : List Char} (hpart : '\n' ∉ part)
    (htab : ∀ p ∈ conv.opcodeInfo, '\n' ∉ p.2.type ∧ '\n' ∉ p.2.description) :
    '\n' ∉ classifyToken conv labels part := by
  have hstrip : '\n' ∉ pyStrip part := fun h => hpart (mem_of_mem_pyStrip h)
  unfold classifyToken
  cases hm : labelMatch (pyStrip part) with
  | some label =>
    have hlab : '\n' ∉ label := fun h => hstrip (mem_of_mem_labelMatch hm h)
    unfold labelRender
    exact notin_append (notin_append (notin_append (notin_append
      (by decide) hlab) (by decide)) hpart) (by decide)
  | none =>
    cases hf : conv.opcodeInfo.find? (fun p => decide (p.1 = normTok conv part)) with
    | some p =>
      have hlk : lookupStr conv.opcodeInfo (normTok conv part) = some p.2 := by
        unfold lookupStr
        rw [hf]
        rfl
      rw [hlk]
      have hp := htab p (List.mem_of_find?_eq_some hf)
      unfold opcodeRender
      exact notin_append (notin_append (notin_append (notin_append (notin_append
        (notin_append (notin_append (notin_append (by decide) hp.1)
          (by decide)) hp.2) (by decide)) hp.2) (by decide)) hpart) (by decide)
    | none =>
      have hlk : lookupStr conv.opcodeInfo (normTok conv part) = none := by
        unfold lookupStr
        rw [hf]
        rfl
      rw [hlk]
      by_cases hb : part ∈ labels
      · rw [if_pos hb]
        unfold branchRender
        exact notin_append (notin_append (notin_append (notin_append
          (by decide) hpart) (by decide)) hpart) (by decide)
      · rw [if_neg hb]
        unfold plainRender
        exact notin_append (notin_append (by decide) hpart) (by decide)

/-- A processed line contains no newline when its input and the opcode table
are newline-free. -/
theorem not_nl_processLine {conv : Converter} {labels : List (List Char)}
    {line : List Char} (hline : '\n' ∉ line)
    (htab : ∀ p ∈ conv.opcodeInfo, '\n' ∉ p.2.type ∧ '\n' ∉ p.2.description) :
    '\n' ∉ processLine conv labels line := by
  unfold processLine
  intro hmem
  obtain ⟨x, hx, hcx⟩ := List.mem_flatten.mp hmem
  obtain ⟨t, ht, rfl⟩ := List.mem_map.mp hx
  have hts : '\n' ∉ t := fun hm => hline (mem_of_mem_splitRuns ht hm)
  exact not_nl_classifyToken hts htab hcx

/-- An annotated line contains no newline when the source line and the
opcode table are newline-free. -/
theorem not_nl_annotateLine {conv : Converter} {labels : List (List Char)}
    {line : List Char} (hline : '\n' ∉ line)
    (htab : ∀ p ∈ conv.opcodeInfo, '\n' ∉ p.2.type ∧ '\n' ∉ p.2.description) :
    '\n' ∉ annotateLine conv labels line := by
  unfold annotateLine
  by_cases hb : pyStrip line = []
  · rw [if_pos hb]
    exact notin_append (notin_append (by decide) hline) (by decide)
  · rw [if_neg hb]
    cases hcm : (splitFirst conv.commentMark line).2 with
    | none =>
      have hcode : '\n' ∉ (splitFirst conv.commentMark line).1 := by
        rw [splitFirst_eq_none hcm]
        exact hline
      have hproc := @not_nl_processLine conv labels _
        (notin_escapeLt hcode (by decide)) htab
      have hch : '\n' ∉ commentChunk conv none := by
        rw [commentChunk_none]
        simp
      exact notin_append (notin_append (by decide)
        (notin_append hproc hch)) (by decide)
    | some cm =>
      have hrec := splitFirst_eq_some hcm
      have hcode : '\n' ∉ (splitFirst conv.commentMark line).1 := by
        intro h
        exact hline (hrec ▸ List.mem_append.mpr (Or.inl (List.mem_append.mpr (Or.inl h))))
      have hsep : '\n' ∉ conv.commentMark := by
        intro h
        exact hline (hrec ▸ List.mem_append.mpr (Or.inl (List.mem_append.mpr (Or.inr h))))
      have hcmt : '\n' ∉ cm := by
        intro h
        exact hline (hrec ▸ List.mem_append.mpr (Or.inr h))
      have hproc := @not_nl_processLine conv labels _
        (notin_escapeLt hcode (by decide)) htab
      have hch : '\n' ∉ commentChunk conv (some cm) := by
        rw [commentChunk_some]
        by_cases hw : conv.wrapComments
        · rw [if_pos hw]
          exact notin_append (notin_append (notin_append
            (by decide) hsep) hcmt) (by decide)
        · rw [if_neg hw]
          exact notin_append hsep hcmt
      exact notin_append (notin_append (by decide)
        (notin_append hproc hch)) (by decide)

/-! ### Claim C1: line-count preservation -/

/-- C1 (counterexample): for the empty input string, `convert` does not
produce zero annotated lines: `''.split('\n') == ['']`, so the single empty
line is annotated and `processed_lines` is `['<span></span>']`, of length
one, not zero. -/
theorem c1_empty_input_one_line :
    annotatedLines convDefault (str "") = [str "<span></span>"] ∧
    (annotatedLines convDefault (str "")).length ≠ 0 := by
  constructor
  · rfl
  · decide

/-- C1 (amended): for every converter whose loaded opcode table is free of
newline characters and every input string, the output joined by newlines
has the same line count as the input split on newlines; the empty input
splits into one empty line, and produces the single annotated line
`<span></span>` (not zero lines). -/
theorem c1_line_count_preserved (conv : Converter)
    (htab : ∀ p ∈ conv.opcodeInfo, '\n' ∉ p.2.type ∧ '\n' ∉ p.2.description)
    (input : List Char) :
    (splitLines (convertL conv input)).length = (splitLines input).length ∧
    annotatedLines conv (str "") = [str "<span></span>"] := by
  constructor
  · have hL : ∀ x ∈ annotatedLines conv input, '\n' ∉ x := by
      intro x hx
      obtain ⟨line, hline, rfl⟩ := List.mem_map.mp hx
      exact not_nl_annotateLine (not_nl_mem_splitLines hline) htab
    have hne : annotatedLines conv input ≠ [] := by
      unfold annotatedLines
      intro h
      exact splitLines_ne_nil input (List.map_eq_nil_iff.mp h)
    rw [convertL, splitLines_joinLines hne hL]
    unfold annotatedLines
    rw [List.length_map]
  · rfl

/-- C1 witness: the amended theorem applied to a concrete three-line input
and the default configuration. -/
theorem c1_line_count_preserved_witness :
    (splitLines (convertL convDefault (str "MOV R0\n\n; end"))).length
      = (splitLines (str "MOV R0\n\n; end")).length ∧
    annotatedLines convDefault (str "") = [str "<span></span>"] :=
  c1_line_count_preserved convDefault (by simp [convDefault]) (str "MOV R0\n\n; end")

/-! ### Claim C5: tokenization reconstructs the code segment -/

/-- C5: concatenating the token sequence produced by the step-4 tokenizer
`splitRuns` (splitting on runs of the delimiter class while retaining the
delimiter runs as tokens) reproduces the tokenized code segment exactly. -/
theorem c5_token_reconstruction (code : List Char) :
    (splitRuns code).flatten = code :=
  splitRuns_flatten code

/-! ### Claim C8: blank lines -/

/-- C8: a line that is empty or whitespace-only skips comment splitting and
tokenization entirely and is emitted verbatim inside the neutral container;
the empty line yields exactly `<span></span>`. -/
theorem c8_blank_lines_verbatim (conv : Converter) (labels : List (List Char)) :
    (∀ line : List Char, pyStrip line = [] →
      annotateLine conv labels line = str "<span>" ++ line ++ str "</span>") ∧
    annotateLine conv labels (str "") = str "<span></span>" := by
  constructor
  · intro line h
    unfold annotateLine
    rw [if_pos h]
  · rfl

/-- C8 witness: a two-space line is wrapped verbatim, and the empty line
gives the empty span. -/
theorem c8_blank_lines_verbatim_witness :
    annotateLine convDefault [] (str "  ") = str "<span>  </span>" ∧
    annotateLine convDefault [] (str "") = str "<span></span>" :=
  ⟨(c8_blank_lines_verbatim convDefault []).1 (str "  ") (by decide),
   (c8_blank_lines_verbatim convDefault []).2⟩

/-! ### Claim C9: comments are appended unescaped -/

/-- C9: when the comment prefix occurs in a non-blank line, the comment
segment is appended verbatim (no HTML escaping) after the prefix, before
the closing tags; in particular a literal `<` in the comment appears
unescaped in the output. -/
theorem c9_comment_unescaped (conv : Converter) (labels : List (List Char))
    (line cm : List Char) (hnb : pyStrip line ≠ [])
    (hcm : (splitFirst conv.commentMark line).2 = some cm) :
    (∃ pre, annotateLine conv labels line =
      pre ++ (conv.commentMark ++ cm) ++
        ((if conv.wrapComments then str "</span>" else []) ++ str "</span>")) ∧
    ('<' ∈ cm → '<' ∈ annotateLine conv labels line) := by
  have key : annotateLine conv labels line =
      (str "<span>" ++
        processLine conv labels (escapeLt (splitFirst conv.commentMark line).1) ++
        (if conv.wrapComments then
          str "<span class=\"comment\" data-type=\"Comment\">" else [])) ++
      (conv.commentMark ++ cm) ++
      ((if conv.wrapComments then str "</span>" else []) ++ str "</span>") := by
    unfold annotateLine
    rw [if_neg hnb, hcm, commentChunk_some]
    by_cases hw : conv.wrapComments <;> simp [hw, List.append_assoc]
  refine ⟨⟨_, key⟩, ?_⟩
  intro hlt
  rw [key]
  exact List.mem_append.mpr (Or.inl (List.mem_append.mpr (Or.inr
    (List.mem_append.mpr (Or.inr hlt)))))

/-- C9 witness: the comment of `MOV ;a<b` is appended verbatim and its `<`
reaches the output unescaped. -/
theorem c9_comment_unescaped_witness :
    (∃ pre, annotateLine convDefault [] (str "MOV ;a<b") =
      pre ++ (convDefault.commentMark ++ str "a<b") ++
        ((if convDefault.wrapComments then str "</span>" else []) ++ str "</span>")) ∧
    ('<' ∈ str "a<b" → '<' ∈ annotateLine convDefault [] (str "MOV ;a<b")) :=
  c9_comment_unescaped convDefault [] (str "MOV ;a<b") (str "a<b")
    (by decide) (by decide)

/-! ### Claim C7: the code segment is escaped before tokenization -/

/-- C7: every literal `<` of the code segment is replaced by the entity
`&lt;` before tokenization: no `<` survives `escapeLt`, no token of the
tokenized escaped code contains `<`, the entity appears whenever the code
contained `<`, and within the annotator every non-blank line is processed
as the tokenization of the escaped code part. -/
theorem c7_escape_before_tokenize (code : List Char) :
    '<' ∉ escapeLt code ∧
    (∀ t ∈ splitRuns (escapeLt code), '<' ∉ t) ∧
    ('<' ∈ code → str "&lt;" <:+: escapeLt code) ∧
    (∀ (conv : Converter) (labels : List (List Char)) (line : List Char),
      pyStrip line ≠ [] →
      annotateLine conv labels line =
        str "<span>" ++
          (processLine conv labels
              (escapeLt (splitFirst conv.commentMark line).1) ++
            commentChunk conv (splitFirst conv.commentMark line).2) ++
          str "</span>") := by
  refine ⟨not_mem_escapeLt_lt code, ?_, entity_infix_escapeLt, ?_⟩
  · intro t ht hmem
    exact not_mem_escapeLt_lt code (mem_of_mem_splitRuns ht hmem)
  · intro conv labels line hnb
    unfold annotateLine
    rw [if_neg hnb]

/-- C7 witness: the escape of `CMP R0, #1<2` has no raw `<`, contains the
entity, its token `1&lt;2` is `<`-free, and the structural equation holds
on a concrete line. -/
theorem c7_escape_before_tokenize_witness :
    '<' ∉ escapeLt (str "CMP R0, #1<2") ∧
    '<' ∉ str "1&lt;2" ∧
    str "&lt;" <:+: escapeLt (str "CMP R0, #1<2") ∧
    annotateLine convDefault [] (str "a<b") =
      str "<span>" ++
        (processLine convDefault []
            (escapeLt (splitFirst convDefault.commentMark (str "a<b")).1) ++
          commentChunk convDefault
            (splitFirst convDefault.commentMark (str "a<b")).2) ++
        str "</span>" :=
  ⟨(c7_escape_before_tokenize (str "CMP R0, #1<2")).1,
   (c7_escape_before_tokenize (str "CMP R0, #1<2")).2.1 (str "1&lt;2") (by decide),
   (c7_escape_before_tokenize (str "CMP R0, #1<2")).2.2.1 (by decide),
   (c7_escape_before_tokenize (str "a<b")).2.2.2 convDefault [] (str "a<b")
     (by decide)⟩

/-! ### Classification case equations -/

/-- A token whose stripped text matches the label pattern is rendered as a
label declaration, whatever the table and label set hold. -/
theorem classifyToken_label {conv : Converter} {labels : List (List Char)}
    {part name : List Char} (h : labelMatch (pyStrip part) = some name) :
    classifyToken conv labels part = labelRender name part := by
  unfold classifyToken
  rw [h]

/-- A non-label token whose normalized text is an opcode key is rendered as
an opcode. -/
theorem classifyToken_opcode {conv : Converter} {labels : List (List Char)}
    {part : List Char} {info : OpInfo}
    (h1 : labelMatch (pyStrip part) = none)
    (h2 : lookupStr conv.opcodeInfo (normTok conv part) = some info) :
    classifyToken conv labels part = opcodeRender info part := by
  unfold classifyToken
  rw [h1, h2]

/-- A non-label, non-opcode token that is (raw) in the label set is rendered
as a branch reference. -/
theorem classifyToken_branch {conv : Converter} {labels : List (List Char)}
    {part : List Char}
    (h1 : labelMatch (pyStrip part) = none)
    (h2 : lookupStr conv.opcodeInfo (normTok conv part) = none)
    (h3 : part ∈ labels) :
    classifyToken conv labels part = branchRender part := by
  unfold classifyToken
  rw [h1, h2, if_pos h3]

/-- A token matching none of the three checks is rendered plainly. -/
theorem classifyToken_plain {conv : Converter} {labels : List (List Char)}
    {part : List Char}
    (h1 : labelMatch (pyStrip part) = none)
    (h2 : lookupStr conv.opcodeInfo (normTok conv part) = none)
    (h3 : part ∉ labels) :
    classifyToken conv labels part = plainRender part := by
  unfold classifyToken
  rw [h1, h2, if_neg h3]

/-! ### Claim C3: fixed classification priority -/

/-- C3: classification follows the fixed priority
label-declaration > opcode > branch-reference > plain, taking the first
matching branch; in particular the label-declaration case applies whatever
the opcode table contains, so a token that is both a label declaration and
an opcode key is rendered as a label declaration. -/
theorem c3_priority_order (conv : Converter) (labels : List (List Char))
    (part : List Char) :
    (∀ name, labelMatch (pyStrip part) = some name →
      classifyToken conv labels part = labelRender name part) ∧
    (∀ info, labelMatch (pyStrip part) = none →
      lookupStr conv.opcodeInfo (normTok conv part) = some info →
      classifyToken conv labels part = opcodeRender info part) ∧
    (labelMatch (pyStrip part) = none →
      lookupStr conv.opcodeInfo (normTok conv part) = none → part ∈ labels →
      classifyToken conv labels part = branchRender part) ∧
    (labelMatch (pyStrip part) = none →
      lookupStr conv.opcodeInfo (normTok conv part) = none → part ∉ labels →
      classifyToken conv labels part = plainRender part) :=
  ⟨fun _ h => classifyToken_label h,
   fun _ h1 h2 => classifyToken_opcode h1 h2,
   fun h1 h2 h3 => classifyToken_branch h1 h2 h3,
   fun h1 h2 h3 => classifyToken_plain h1 h2 h3⟩

/-- A converter whose (case-insensitive) table was loaded from the single
row `.word,Directive,Define word`, so that the token `.word` is both a
label declaration and an opcode key. -/
def convDotWord : Converter :=
  ⟨loadOpcodeInfo [CsvRow.mk (str ".word") (str "Directive") (str "Define word")] false,
   true, str ";", false⟩

/-- C3 witness: `.word` is an opcode-table key, yet classification renders
it as a label declaration. -/
theorem c3_priority_order_witness :
    lookupStr convDotWord.opcodeInfo (normTok convDotWord (str ".word")) =
      some (OpInfo.mk (str "Directive") (str "Define word")) ∧
    classifyToken convDotWord [] (str ".word") =
      labelRender (str "word") (str ".word") :=
  ⟨by decide,
   (c3_priority_order convDotWord [] (str ".word")).1 (str "word") (by decide)⟩

/-! ### Claim C4: branch matching uses the raw token -/

/-- C4: the branch-reference check compares the raw, non-normalized token
against the label set by exact equality, for either value of the
case-sensitivity flag: membership of the raw token decides between the
branch rendering and the plain rendering. -/
theorem c4_raw_branch_matching (conv : Converter) (labels : List (List Char))
    (part : List Char)
    (h1 : labelMatch (pyStrip part) = none)
    (h2 : lookupStr conv.opcodeInfo (normTok conv part) = none) :
    (part ∈ labels → classifyToken conv labels part = branchRender part) ∧
    (part ∉ labels → classifyToken conv labels part = plainRender part) :=
  ⟨fun h3 => classifyToken_branch h1 h2 h3,
   fun h3 => classifyToken_plain h1 h2 h3⟩

/-- C4 witness: under the default case-insensitive configuration, with the
label `loop` collected from `.loop:`, the different-case reference `LOOP`
is NOT rendered as a branch (it falls through to plain), while the
exact-case reference `loop` is. -/
theorem c4_raw_branch_matching_witness :
    str "LOOP" ∉ collectLabels (str ".loop:\nB LOOP") ∧
    classifyToken convDefault (collectLabels (str ".loop:\nB LOOP"))
      (str "LOOP") = plainRender (str "LOOP") ∧
    classifyToken convDefault (collectLabels (str ".loop:\nB LOOP"))
      (str "loop") = branchRender (str "loop") :=
  ⟨by decide,
   (c4_raw_branch_matching convDefault (collectLabels (str ".loop:\nB LOOP"))
     (str "LOOP") (by decide) (by decide)).2 (by decide),
   (c4_raw_branch_matching convDefault (collectLabels (str ".loop:\nB LOOP"))
     (str "loop") (by decide) (by decide)).1 (by decide)⟩

/-! ### Claim C6: opcode case normalization -/

/-- The opcode metadata of the table row `MOV,Data Movement,"Move value"`. -/
def movInfo : OpInfo := OpInfo.mk (str "Data Movement") (str "Move value")

/-- The table row `MOV,Data Movement,"Move value"`. -/
def movRow : CsvRow := CsvRow.mk (str "MOV") (str "Data Movement") (str "Move value")

/-- The default (case-insensitive) converter loaded from the single row
`MOV,Data Movement,"Move value"`. -/
def convMovCI : Converter := ⟨loadOpcodeInfo [movRow] false, true, str ";", false⟩

/-- The case-sensitive converter loaded from the same row. -/
def convMovCS : Converter := ⟨loadOpcodeInfo [movRow] true, true, str ";", true⟩

/-- C6: with the table row `MOV,Data Movement,"Move value"`, under the
default case-insensitive mode the tokens `MOV`, `mov` and `Mov` all receive
the opcode rendering carrying `data-type="Data Movement"`; under
case-sensitive mode only the exact-case token does, the others fall through
to plain spans.  Keys are upper-cased at load: a lower-case row mnemonic is
stored upper-cased in case-insensitive mode. -/
theorem c6_case_insensitive_opcodes :
    classifyToken convMovCI [] (str "MOV") = opcodeRender movInfo (str "MOV") ∧
    classifyToken convMovCI [] (str "mov") = opcodeRender movInfo (str "mov") ∧
    classifyToken convMovCI [] (str "Mov") = opcodeRender movInfo (str "Mov") ∧
    classifyToken convMovCS [] (str "MOV") = opcodeRender movInfo (str "MOV") ∧
    classifyToken convMovCS [] (str "mov") = plainRender (str "mov") ∧
    classifyToken convMovCS [] (str "Mov") = plainRender (str "Mov") ∧
    loadOpcodeInfo [CsvRow.mk (str "mov") (str "Data Movement") (str "Move value")]
      false = [(str "MOV", movInfo)] := by
  refine ⟨?_, ?_, ?_, ?_, ?_, ?_, ?_⟩ <;> decide

/-! ### Claim C10: the label branch ignores the label set -/

/-- C10: the label-declaration branch never consults the collected label
set: classification of a pattern-matching token is identical under any two
label sets and always yields the label anchor with the stripped name as id.
Concretely, `.FOO` in the middle of the line `B .FOO` is rendered as an
anchor with `id="FOO"` even though `_collect_labels` (which only looks at
line starts) collects nothing from that input, so the anchor has no
table-of-contents entry and no resolvable branch references. -/
theorem c10_label_anchor_without_declaration :
    (∀ (conv : Converter) (labels labels2 : List (List Char)) (part : List Char),
      (labelMatch (pyStrip part)).isSome →
      classifyToken conv labels part = classifyToken conv labels2 part) ∧
    (∀ (conv : Converter) (labels : List (List Char)) (part name : List Char),
      labelMatch (pyStrip part) = some name →
      classifyToken conv labels part = labelRender name part) ∧
    collectLabels (str "B .FOO") = [] ∧
    str "<a id=\"FOO\" data-type=\"Label\">" <:+: convertL convDefault (str "B .FOO") := by
  refine ⟨?_, ?_, by decide, by decide⟩
  · intro conv labels labels2 part h
    obtain ⟨name, hn⟩ := Option.isSome_iff_exists.mp h
    rw [classifyToken_label hn, classifyToken_label hn]
  · intro conv labels part name h
    exact classifyToken_label h

/-- C10 witness: classification of `.FOO` is the same under two different
label sets and produces the label anchor rendering. -/
theorem c10_label_anchor_without_declaration_witness :
    classifyToken convDefault [str "X"] (str ".FOO") =
      classifyToken convDefault [] (str ".FOO") ∧
    classifyToken convDefault [] (str ".FOO") =
      labelRender (str "FOO") (str ".FOO") :=
  ⟨(c10_label_anchor_without_declaration).1 convDefault [str "X"] []
     (str ".FOO") (by decide),
   (c10_label_anchor_without_declaration).2.1 convDefault [] (str ".FOO")
     (str "FOO") (by decide)⟩

/-! ### Infix chains from a classified token to the final output -/

/-- The classification of any token of a line is an infix of the processed
line. -/
theorem classify_infix_processLine {conv : Converter} {labels : List (List Char)}
    {l t : List Char} (ht : t ∈ splitRuns l) :
    classifyToken conv labels t <:+: processLine conv labels l := by
  unfold processLine
  exact List.infix_of_mem_flatten (List.mem_map.mpr ⟨t, ht, rfl⟩)

/-- The processed code part of a non-blank line is an infix of the annotated
line. -/
theorem processLine_infix_annotateLine {conv : Converter}
    {labels : List (List Char)} {line : List Char} (hnb : pyStrip line ≠ []) :
    processLine conv labels (escapeLt (splitFirst conv.commentMark line).1) <:+:
      annotateLine conv labels line := by
  unfold annotateLine
  rw [if_neg hnb]
  exact ⟨str "<span>",
    commentChunk conv (splitFirst conv.commentMark line).2 ++ str "</span>",
    by simp [List.append_assoc]⟩

/-- The annotation of any line of the input is an infix of the converted
output. -/
theorem annotateLine_infix_convertL {conv : Converter} {input line : List Char}
    (hline : line ∈ splitLines input) :
    annotateLine conv (collectLabels input) line <:+: convertL conv input := by
  unfold convertL annotatedLines
  exact infix_joinLines (List.mem_map.mpr ⟨line, hline, rfl⟩)

/-! ### Label collection reaches every declaration -/

/-- Labels already accumulated survive the rest of the fold. -/
theorem mem_foldl_collectStep_of_mem {acc : List (List Char)}
    {L : List (List Char)} {x : List Char} (hx : x ∈ acc) :
    x ∈ L.foldl collectStep acc := by
  induction L generalizing acc with
  | nil => exact hx
  | cons a t ih =>
    apply ih
    unfold collectStep
    cases hm : labelMatch (pyStrip a) with
    | none => exact hx
    | some lab =>
      show x ∈ if lab ∈ acc then acc else acc ++ [lab]
      by_cases h : lab ∈ acc
      · rw [if_pos h]; exact hx
      · rw [if_neg h]; exact List.mem_append.mpr (Or.inl hx)

/-- A label declared on any processed line ends up in the fold result. -/
theorem mem_foldl_collectStep_of_decl {L : List (List Char)}
    {line lab : List Char} (hL : line ∈ L)
    (hm : labelMatch (pyStrip line) = some lab) (acc : List (List Char)) :
    lab ∈ L.foldl collectStep acc := by
  induction L generalizing acc with
  | nil => simp at hL
  | cons a t ih =>
    rcases List.mem_cons.mp hL with h | h
    · rw [List.foldl_cons]
      apply mem_foldl_collectStep_of_mem
      unfold collectStep
      rw [← h, hm]
      show lab ∈ if lab ∈ acc then acc else acc ++ [lab]
      by_cases hh : lab ∈ acc
      · rw [if_pos hh]; exact hh
      · rw [if_neg hh]; exact List.mem_append.mpr (Or.inr (by simp))
    · exact ih h _

/-- A label declared at the start of any line of the input is collected. -/
theorem mem_collectLabels_of_decl {input line lab : List Char}
    (hline : line ∈ splitLines input)
    (hm : labelMatch (pyStrip line) = some lab) :
    lab ∈ collectLabels input :=
  mem_foldl_collectStep_of_decl hline hm []

/-! ### Claim C2: two-pass label resolution -/

/-- The token `LOOP1` is classified as a branch reference whenever it is in
the label set and not an opcode key (its normalization is itself under
either case mode). -/
theorem classify_branch_loop1 {conv : Converter} {labels : List (List Char)}
    (hopc : lookupStr conv.opcodeInfo (str "LOOP1") = none)
    (hmem : str "LOOP1" ∈ labels) :
    classifyToken conv labels (str "LOOP1") = branchRender (str "LOOP1") := by
  have h1 : labelMatch (pyStrip (str "LOOP1")) = none := by decide
  have h2 : normTok conv (str "LOOP1") = str "LOOP1" := by
    unfold normTok
    by_cases hc : conv.caseSensitive
    · rw [if_pos hc]; decide
    · rw [if_neg hc]; decide
  exact classifyToken_branch h1 (by rw [h2]; exact hopc) hmem

/-- The anchor element is an infix of the label rendering. -/
theorem anchor_infix_labelRender (name part : List Char) :
    (str "<a id=\"" ++ name ++ str "\" data-type=\"Label\">") <:+:
      labelRender name part := by
  have hA : str "<span class=\"label\"><a id=\"" =
      str "<span class=\"label\">" ++ str "<a id=\"" := by decide
  unfold labelRender
  rw [hA]
  exact ⟨str "<span class=\"label\">", part ++ str "</a></span>",
    by simp [List.append_assoc]⟩

/-- C2: the label set is computed from the entire input before any line is
annotated, so a label `LOOP1` declared (as `.LOOP1...`) at the start of any
line — earlier or later — is collected; every token of every non-blank
line that is exactly `LOOP1` is then rendered as a branch anchor
`href="#LOOP1"` appearing in the output (provided `LOOP1` is not an opcode
key), and every declaration token is rendered as an anchor with
`id="LOOP1"` in the output. -/
theorem c2_two_pass_label_resolution (conv : Converter) (input : List Char)
    (hopc : lookupStr conv.opcodeInfo (str "LOOP1") = none) :
    (∀ line ∈ splitLines input,
      labelMatch (pyStrip line) = some (str "LOOP1") →
      str "LOOP1" ∈ collectLabels input) ∧
    (str "LOOP1" ∈ collectLabels input →
      ∀ line ∈ splitLines input, pyStrip line ≠ [] →
      str "LOOP1" ∈ splitRuns (escapeLt (splitFirst conv.commentMark line).1) →
      branchRender (str "LOOP1") <:+: convertL conv input) ∧
    (∀ line ∈ splitLines input, pyStrip line ≠ [] →
      ∀ t ∈ splitRuns (escapeLt (splitFirst conv.commentMark line).1),
      labelMatch (pyStrip t) = some (str "LOOP1") →
      str "<a id=\"LOOP1\" data-type=\"Label\">" <:+: convertL conv input) := by
  refine ⟨?_, ?_, ?_⟩
  · intro line hline hm
    exact mem_collectLabels_of_decl hline hm
  · intro hmem line hline hnb ht
    have h1 := @classify_branch_loop1 conv (collectLabels input) hopc hmem
    have h2 := @classify_infix_processLine conv (collectLabels input) _ _ ht
    rw [h1] at h2
    exact (h2.trans (processLine_infix_annotateLine hnb)).trans
      (annotateLine_infix_convertL hline)
  · intro line hline hnb t ht hm
    have h1 := @classifyToken_label conv (collectLabels input) _ _ hm
    have h2 := @classify_infix_processLine conv (collectLabels input) _ _ ht
    rw [h1] at h2
    have h3 := anchor_infix_labelRender (str "LOOP1") t
    have h4 : str "<a id=\"LOOP1\" data-type=\"Label\">" =
        str "<a id=\"" ++ str "LOOP1" ++ str "\" data-type=\"Label\">" := by decide
    rw [h4]
    exact ((h3.trans h2).trans (processLine_infix_annotateLine hnb)).trans
      (annotateLine_infix_convertL hline)

/-- A two-line input referencing `LOOP1` one line before its declaration. -/
def loopInput : List Char := str "B LOOP1\n.LOOP1: MOV R0"

/-- C2 witness: in `B LOOP1\n.LOOP1: MOV R0` the forward reference on line
one is rendered as a branch anchor and the declaration on line two as an id
anchor, both reaching the final output. -/
theorem c2_two_pass_label_resolution_witness :
    branchRender (str "LOOP1") <:+: convertL convDefault loopInput ∧
    str "<a id=\"LOOP1\" data-type=\"Label\">" <:+: convertL convDefault loopInput :=
  ⟨(c2_two_pass_label_resolution convDefault loopInput (by decide)).2.1
      (by decide) (str "B LOOP1") (by decide) (by decide) (by decide),
   (c2_two_pass_label_resolution convDefault loopInput (by decide)).2.2
      (str ".LOOP1: MOV R0") (by decide) (by decide) (str ".LOOP1")
      (by decide) (by decide)⟩

end AnnoAssy
